import Mathlib

/-!
Verification of the apod-bot cache/backfill/transcode/schedule pipeline.

Shallow embedding of the Go sources:
* `DBState` and its operations embed the event-sourced schedule store `DB`
  (`db.go`: `load`, `set`, `remove`, `sent`, `Set`, `Remove`, `Sent`, `RemoveIf`).
* `AppendOnlyState` embeds the generic append-only cache
  (`internal/cache/append.go`: `AppendOnly.Add`/`Get`/`load`).
* `ImageWrapperM` and `iwResize` embed `ImageWrapper` and `ImageWrapper.Resize`
  (`internal/apod` image code); `MemoryImageCache` embeds the bounded in-memory
  image cache of `internal/apod/image_cache.go`.
* `parseGoDate`, `IsValidDate`, `apodGet`, `apodGetImage` and `fill` embed the
  `APOD` client (`internal/apod/apod.go`).

Go maps are embedded as association lists (`mapLookup`/`mapInsert`/`mapErase`);
file writes through `json.Encoder` are embedded as appending the encoded value
to an explicit durable-log list, with a boolean marking whether the write
succeeded.  Machine integers that can go negative (`int` sizes) are `Int`.
-/

namespace ApodBot

/-- Lookup in an association-list embedding of a Go `map[string]V`. -/
def mapLookup {α : Type} (k : String) : List (String × α) → Option α
  | [] => none
  | (k', v) :: rest => if k = k' then some v else mapLookup k rest

/-- Insert-or-overwrite, the embedding of Go `m[k] = v`. -/
def mapInsert {α : Type} (k : String) (v : α) : List (String × α) → List (String × α)
  | [] => [(k, v)]
  | (k', v') :: rest => if k = k' then (k, v) :: rest else (k', v') :: mapInsert k v rest

/-- Key removal, the embedding of Go `delete(m, k)`. -/
def mapErase {α : Type} (k : String) : List (String × α) → List (String × α)
  | [] => []
  | (k', v') :: rest => if k = k' then mapErase k rest else (k', v') :: mapErase k rest

theorem mapLookup_mapInsert_self {α : Type} (k : String) (v : α) (m : List (String × α)) :
    mapLookup k (mapInsert k v m) = some v := by
  induction m with
  | nil => simp [mapInsert, mapLookup]
  | cons hd tl ih =>
    by_cases h : k = hd.1
    · simp [mapInsert, mapLookup, h]
    · simp [mapInsert, mapLookup, h, ih]

theorem mapLookup_mapErase_self {α : Type} (k : String) (m : List (String × α)) :
    mapLookup k (mapErase k m) = none := by
  induction m with
  | nil => simp [mapErase, mapLookup]
  | cons hd tl ih =>
    by_cases h : k = hd.1
    · simpa [mapErase, h] using ih
    · simp [mapErase, mapLookup, h, ih]

theorem mapLookup_mapErase_none {α : Type} (c k : String) (m : List (String × α))
    (h : mapLookup c m = none) : mapLookup c (mapErase k m) = none := by
  induction m with
  | nil => simp [mapErase, mapLookup]
  | cons hd tl ih =>
    by_cases hc : c = hd.1
    · simp [mapLookup, hc] at h
    · simp only [mapLookup, if_neg hc] at h
      by_cases hk : k = hd.1
      · simpa [mapErase, hk] using ih h
      · simp [mapErase, mapLookup, hk, hc, ih h]

theorem mapLookup_mem {α : Type} (c : String) (v : α) (m : List (String × α))
    (h : mapLookup c m = some v) : (c, v) ∈ m := by
  induction m with
  | nil => simp [mapLookup] at h
  | cons hd tl ih =>
    by_cases hc : c = hd.1
    · simp only [mapLookup, if_pos hc] at h
      obtain ⟨k', v'⟩ := hd
      simp only at hc
      simp only [Option.some.injEq] at h
      subst hc
      subst h
      exact List.mem_cons_self _ _
    · simp only [mapLookup, if_neg hc] at h
      exact List.mem_cons_of_mem _ (ih h)

/-! ## Schedule store (`DB` in `db.go`)

`Event` carries a wall-clock timestamp in the source; the timestamp is never
read by `load` or by the reducers, so it is omitted from the embedding. -/

/-- Embedding of the `Event` tagged union (`EventTypeSet`/`Remove`/`Sent` with
their payload structs `SetEvent`, `RemoveEvent`, `SentEvent`). -/
inductive DBEvent where
  | set (channelID : String) (hour : Int)
  | remove (channelID : String)
  | sent (channelID : String) (date : String)
deriving DecidableEq

/-- Embedding of `DB`: the two derived maps plus the current content of the
durable event log (the append-only file written through `db.encoder`). -/
structure DBState where
  schedule : List (String × Int)
  last : List (String × String)
  log : List DBEvent
deriving DecidableEq

/-- One step of the pure reducers `db.set` / `db.remove` / `db.sent` applied to
the pair (schedule map, last-sent map). -/
def dbStep (m : List (String × Int) × List (String × String)) :
    DBEvent → List (String × Int) × List (String × String)
  | .set c h => (mapInsert c h m.1, m.2)
  | .remove c => (mapErase c m.1, m.2)
  | .sent c d => (m.1, mapInsert c d m.2)

/-- Embedding of `DB.load`: fold the event log into the two derived maps,
starting from empty maps. -/
def dbLoad (log : List DBEvent) : List (String × Int) × List (String × String) :=
  log.foldl dbStep ([], [])

/-- Embedding of `NewDB`: a freshly loaded store replays the initial log into
memory; the durable log is the initial file content (subsequent encodes
append after it). -/
def dbNew (initLog : List DBEvent) : DBState :=
  { schedule := (dbLoad initLog).1, last := (dbLoad initLog).2, log := initLog }

/-- Embedding of `DB.Set`: always updates the in-memory map, then encodes the
event; `appendOk` records whether `db.encoder.Encode` succeeded in writing the
event to the durable log.  The Go method returns nothing, so the encode error
is dropped either way. -/
def DBState.setOp (db : DBState) (appendOk : Bool) (c : String) (h : Int) : DBState :=
  { db with
      schedule := mapInsert c h db.schedule,
      log := if appendOk then db.log ++ [DBEvent.set c h] else db.log }

/-- Embedding of `DB.Remove` (same shape as `DB.Set`). -/
def DBState.removeOp (db : DBState) (appendOk : Bool) (c : String) : DBState :=
  { db with
      schedule := mapErase c db.schedule,
      log := if appendOk then db.log ++ [DBEvent.remove c] else db.log }

/-- Embedding of `DB.Sent` (same shape as `DB.Set`). -/
def DBState.sentOp (db : DBState) (appendOk : Bool) (c : String) (d : String) : DBState :=
  { db with
      last := mapInsert c d db.last,
      log := if appendOk then db.log ++ [DBEvent.sent c d] else db.log }

/-- A client-visible schedule operation, as named in the spec. -/
inductive ScheduleOp where
  | set (channelID : String) (hour : Int)
  | remove (channelID : String)
  | sent (channelID : String) (date : String)
deriving DecidableEq

/-- Run one schedule operation with the durable append succeeding. -/
def runOp (db : DBState) : ScheduleOp → DBState
  | .set c h => db.setOp true c h
  | .remove c => db.removeOp true c
  | .sent c d => db.sentOp true c d

/-- Run a sequence of schedule operations with all appends succeeding. -/
def runOps (db : DBState) (ops : List ScheduleOp) : DBState :=
  ops.foldl runOp db

/-- The event-sourcing invariant: replaying the durable log from empty
reproduces the live in-memory derived state. -/
def DBState.consistent (db : DBState) : Prop :=
  dbLoad db.log = (db.schedule, db.last)

instance (db : DBState) : Decidable db.consistent := by
  unfold DBState.consistent
  infer_instance

theorem dbLoad_append_one (l : List DBEvent) (e : DBEvent) :
    dbLoad (l ++ [e]) = dbStep (dbLoad l) e := by
  simp [dbLoad, List.foldl_append]

theorem consistent_dbNew (initLog : List DBEvent) : (dbNew initLog).consistent := by
  simp [DBState.consistent, dbNew]

theorem consistent_runOp {db : DBState} (h : db.consistent) (op : ScheduleOp) :
    (runOp db op).consistent := by
  cases op with
  | set c hr =>
    simp only [runOp, DBState.consistent, DBState.setOp, if_pos]
    rw [dbLoad_append_one, h]
    rfl
  | remove c =>
    simp only [runOp, DBState.consistent, DBState.removeOp, if_pos]
    rw [dbLoad_append_one, h]
    rfl
  | sent c d =>
    simp only [runOp, DBState.consistent, DBState.sentOp, if_pos]
    rw [dbLoad_append_one, h]
    rfl

theorem consistent_runOps {db : DBState} (h : db.consistent) (ops : List ScheduleOp) :
    (runOps db ops).consistent := by
  induction ops generalizing db with
  | nil => exact h
  | cons op rest ih => exact ih (consistent_runOp h op)

/-- Claim C1: for every sequence of schedule operations `Set`/`Remove`/`Sent`
applied to a freshly loaded `DB`, replaying the durable event log from empty
reproduces exactly the live in-memory derived state; in particular
`Set(chan1, 14)`, `Set(chan1, 9)`, `Sent(chan1, "2024-01-01")` yields schedule
map `{chan1: 9}` and last-sent map `{chan1: "2024-01-01"}`. -/
theorem C1_replay_reproduces_live_state :
    (∀ (initLog : List DBEvent) (ops : List ScheduleOp),
      dbLoad (runOps (dbNew initLog) ops).log =
        ((runOps (dbNew initLog) ops).schedule, (runOps (dbNew initLog) ops).last))
    ∧ (runOps (dbNew []) [.set "chan1" 14, .set "chan1" 9,
        .sent "chan1" "2024-01-01"]).schedule = [("chan1", 9)]
    ∧ (runOps (dbNew []) [.set "chan1" 14, .set "chan1" 9,
        .sent "chan1" "2024-01-01"]).last = [("chan1", "2024-01-01")]
    ∧ dbLoad (runOps (dbNew []) [.set "chan1" 14, .set "chan1" 9,
        .sent "chan1" "2024-01-01"]).log = ([("chan1", 9)], [("chan1", "2024-01-01")]) := by
  refine ⟨fun initLog ops => consistent_runOps (consistent_dbNew initLog) ops, ?_, ?_, ?_⟩
  · decide
  · decide
  · decide

/-! ## `DB.RemoveIf` -/

/-- Inner loop of `DB.RemoveIf`: iterate over the entries of the schedule map
(the `range db.schedule` snapshot), and for every entry matching the predicate
delete it from the map and encode a `Remove` event.  `RemoveIf` only deletes
the entry currently being visited, so the iteration sees every original
entry. -/
def dbRemoveIfGo (p : String → Int → Bool) (db : DBState) :
    List (String × Int) → DBState
  | [] => db
  | (c, h) :: rest =>
    if p c h then
      dbRemoveIfGo p
        { db with
            schedule := mapErase c db.schedule,
            log := db.log ++ [DBEvent.remove c] } rest
    else dbRemoveIfGo p db rest

/-- Embedding of `DB.RemoveIf` (with the durable appends succeeding). -/
def DBState.removeIf (db : DBState) (p : String → Int → Bool) : DBState :=
  dbRemoveIfGo p db db.schedule

theorem dbRemoveIfGo_consistent (p : String → Int → Bool) (l : List (String × Int))
    {db : DBState} (h : db.consistent) : (dbRemoveIfGo p db l).consistent := by
  induction l generalizing db with
  | nil => exact h
  | cons hd tl ih =>
    obtain ⟨c, hr⟩ := hd
    by_cases hp : p c hr
    · simp only [dbRemoveIfGo, if_pos hp]
      refine ih ?_
      simp only [DBState.consistent]
      rw [dbLoad_append_one, h]
      rfl
    · simp only [dbRemoveIfGo, if_neg hp]
      exact ih h

theorem dbRemoveIfGo_log_mono (p : String → Int → Bool) (l : List (String × Int))
    (db : DBState) (e : DBEvent) (h : e ∈ db.log) : e ∈ (dbRemoveIfGo p db l).log := by
  induction l generalizing db with
  | nil => exact h
  | cons hd tl ih =>
    obtain ⟨c, hr⟩ := hd
    by_cases hp : p c hr
    · simp only [dbRemoveIfGo, if_pos hp]
      exact ih _ (by simp [h])
    · simp only [dbRemoveIfGo, if_neg hp]
      exact ih _ h

theorem dbRemoveIfGo_none_persists (p : String → Int → Bool) (l : List (String × Int))
    (db : DBState) (c : String) (h : mapLookup c db.schedule = none) :
    mapLookup c (dbRemoveIfGo p db l).schedule = none := by
  induction l generalizing db with
  | nil => exact h
  | cons hd tl ih =>
    obtain ⟨c', hr⟩ := hd
    by_cases hp : p c' hr
    · simp only [dbRemoveIfGo, if_pos hp]
      exact ih _ (mapLookup_mapErase_none c c' db.schedule h)
    · simp only [dbRemoveIfGo, if_neg hp]
      exact ih _ h

theorem dbRemoveIfGo_removes (p : String → Int → Bool) (l : List (String × Int))
    (db : DBState) (c : String) (hr : Int) (hmem : (c, hr) ∈ l) (hp : p c hr = true) :
    DBEvent.remove c ∈ (dbRemoveIfGo p db l).log
    ∧ mapLookup c (dbRemoveIfGo p db l).schedule = none := by
  induction l generalizing db with
  | nil => simp at hmem
  | cons hd tl ih =>
    obtain ⟨c', hr'⟩ := hd
    rcases List.mem_cons.mp hmem with hhd | htl
    · obtain ⟨hc, hh⟩ := Prod.mk.inj hhd
      subst hc
      subst hh
      simp only [dbRemoveIfGo, if_pos hp]
      constructor
      · exact dbRemoveIfGo_log_mono p tl _ _ (by simp)
      · exact dbRemoveIfGo_none_persists p tl _ c (mapLookup_mapErase_self c db.schedule)
    · by_cases hp' : p c' hr'
      · simp only [dbRemoveIfGo, if_pos hp']
        exact ih _ htl
      · simp only [dbRemoveIfGo, if_neg hp']
        exact ih _ htl

/-- Claim C2: after `DB.RemoveIf(p)`, every recipient for which `p` returned
true has a `Remove` event appended to the durable log, reloading the log no
longer contains that recipient in the schedule map, and the replay end state
equals the live end state. -/
theorem C2_removeIf_logs_removals (db : DBState) (p : String → Int → Bool)
    (hcons : db.consistent) :
    (db.removeIf p).consistent
    ∧ ∀ c hr, mapLookup c db.schedule = some hr → p c hr = true →
        DBEvent.remove c ∈ (db.removeIf p).log
        ∧ mapLookup c (dbLoad (db.removeIf p).log).1 = none := by
  have hcons' : (db.removeIf p).consistent := dbRemoveIfGo_consistent p db.schedule hcons
  refine ⟨hcons', fun c hr hlook hp => ?_⟩
  have hmem : (c, hr) ∈ db.schedule := mapLookup_mem c hr db.schedule hlook
  obtain ⟨hlog, hgone⟩ := dbRemoveIfGo_removes p db.schedule db c hr hmem hp
  refine ⟨hlog, ?_⟩
  have : dbLoad (db.removeIf p).log = ((db.removeIf p).schedule, (db.removeIf p).last) := hcons'
  rw [this]
  exact hgone

/-- Witness for C2: pruning the unreachable `chan2` appends a `Remove` event
and reloading the log no longer contains `chan2`. -/
theorem C2_witness :
    (((runOps (dbNew []) [.set "chan1" 9, .set "chan2" 10]).removeIf
        (fun c _ => c = "chan2")).consistent)
    ∧ DBEvent.remove "chan2" ∈ ((runOps (dbNew []) [.set "chan1" 9, .set "chan2" 10]).removeIf
        (fun c _ => c = "chan2")).log
    ∧ mapLookup "chan2" (dbLoad ((runOps (dbNew [])
        [.set "chan1" 9, .set "chan2" 10]).removeIf (fun c _ => c = "chan2")).log).1 = none := by
  obtain ⟨h1, h2⟩ := C2_removeIf_logs_removals
    (runOps (dbNew []) [.set "chan1" 9, .set "chan2" 10])
    (fun c _ => c = "chan2") (by decide)
  obtain ⟨h3, h4⟩ := h2 "chan2" 10 (by decide) (by decide)
  exact ⟨h1, h3, h4⟩

/-! ## Claim C6: append failures in `DB.Set` / `DB.Remove`

In the source, `DB.Set` and `DB.Remove` first mutate the in-memory map and
then call `db.encoder.Encode(event)`; the value returned by `Encode` is
discarded and both methods return nothing, so an append failure is invisible
to the caller (`setOp`/`removeOp` with `appendOk = false` leave the durable
log unchanged while the memory update still happens). -/

/-- Counterexample to claim C6: `DB.Set` with a failing durable append still
updates the in-memory schedule, leaves the log empty and surfaces no error to
the caller (the method has no error result at all), so the in-memory state
silently diverges from the durable log. -/
theorem C6_counterexample :
    ((dbNew []).setOp false "chan1" 9).schedule = [("chan1", 9)]
    ∧ ((dbNew []).setOp false "chan1" 9).log = []
    ∧ ¬ ((dbNew []).setOp false "chan1" 9).consistent := by
  refine ⟨by decide, by decide, by decide⟩

/-- Claim C6 (amended): `DB.Set` and `DB.Remove` discard the append error and
return nothing, so when the durable append fails and the operation actually
changes the schedule, the in-memory schedule state silently diverges from the
replay of the durable log. -/
theorem C6_amended_append_failures_swallowed (db : DBState) (c : String) (hr : Int)
    (hcons : db.consistent) :
    (mapLookup c db.schedule ≠ some hr → ¬ (db.setOp false c hr).consistent)
    ∧ (mapLookup c db.schedule = some hr → ¬ (db.removeOp false c).consistent) := by
  constructor
  · intro hne hcon
    simp only [DBState.consistent, DBState.setOp, if_neg (by simp : ¬ (false = true))] at hcon
    rw [hcons] at hcon
    have h1 : db.schedule = mapInsert c hr db.schedule := congrArg Prod.fst hcon
    have h2 : mapLookup c db.schedule = some hr := by
      rw [h1]
      exact mapLookup_mapInsert_self c hr db.schedule
    exact hne h2
  · intro hsome hcon
    simp only [DBState.consistent, DBState.removeOp, if_neg (by simp : ¬ (false = true))] at hcon
    rw [hcons] at hcon
    have h1 : db.schedule = mapErase c db.schedule := congrArg Prod.fst hcon
    have h2 : mapLookup c db.schedule = none := by
      rw [h1]
      exact mapLookup_mapErase_self c db.schedule
    rw [hsome] at h2
    exact Option.noConfusion h2

/-- Witness for the amended C6 at a concrete store. -/
theorem C6_amended_witness :
    ¬ ((runOps (dbNew []) [.set "chan1" 9]).setOp false "chan2" 10).consistent
    ∧ ¬ ((runOps (dbNew []) [.set "chan1" 9]).removeOp false "chan1").consistent := by
  obtain ⟨h1, h2⟩ := C6_amended_append_failures_swallowed
    (runOps (dbNew []) [.set "chan1" 9]) "chan2" 10 (by decide)
  obtain ⟨h3, h4⟩ := C6_amended_append_failures_swallowed
    (runOps (dbNew []) [.set "chan1" 9]) "chan1" 9 (by decide)
  exact ⟨h1 (by decide), h4 (by decide)⟩

/-! ## Generic append-only cache (`internal/cache/append.go`) -/

/-- Embedding of `AppendOnly[T]`: the in-memory index plus the content of the
durable append log (the stream written through `c.encoder`). -/
structure AppendOnlyState (α : Type) where
  cache : List (String × α)
  log : List α
deriving DecidableEq

/-- Embedding of `AppendOnly.Add`: the source updates the in-memory map first
(`c.cache[date] = response`), then appends (`c.encoder.Encode(response)`) and
returns the encode error.  `appendOk` records whether the durable append
succeeded; `some ()` in the second component models a non-nil returned
error. -/
def appendOnlyAdd {α : Type} (st : AppendOnlyState α) (appendOk : Bool)
    (date : String) (v : α) : AppendOnlyState α × Option Unit :=
  ({ cache := mapInsert date v st.cache,
     log := if appendOk then st.log ++ [v] else st.log },
   if appendOk then none else some ())

/-- Embedding of `AppendOnly.load`: replay the log into an index from empty,
keying each value by its `GetDate()`. -/
def appendOnlyLoad {α : Type} (getDate : α → String) (log : List α) :
    List (String × α) :=
  log.foldl (fun m v => mapInsert (getDate v) v m) []

/-- Counterexample to claim C5: `AppendOnly.Add` updates the in-memory index
before appending, so a failed append returns an error while the index already
holds the entry and the durable log does not — the in-memory index is ahead of
the log and the "failed" operation has visibly happened in memory. -/
theorem C5_counterexample :
    (appendOnlyAdd (⟨[], []⟩ : AppendOnlyState String) false "2024-01-01" "record").2 = some ()
    ∧ (appendOnlyAdd (⟨[], []⟩ : AppendOnlyState String) false
        "2024-01-01" "record").1.cache = [("2024-01-01", "record")]
    ∧ (appendOnlyAdd (⟨[], []⟩ : AppendOnlyState String) false
        "2024-01-01" "record").1.log = [] := by
  refine ⟨rfl, rfl, rfl⟩

/-- Claim C5 (amended): `AppendOnly.Add` updates the in-memory index first and
then appends; when the append fails the error is propagated to the caller, but
the entry stays in the in-memory index while replaying the durable log does
not produce it, so the in-memory index runs ahead of the durable log. -/
theorem C5_amended_memory_ahead_of_log {α : Type} (getDate : α → String)
    (st : AppendOnlyState α) (d : String) (v : α)
    (hcons : st.cache = appendOnlyLoad getDate st.log)
    (hmiss : mapLookup d st.cache = none) :
    (appendOnlyAdd st false d v).2 = some ()
    ∧ mapLookup d (appendOnlyAdd st false d v).1.cache = some v
    ∧ mapLookup d (appendOnlyLoad getDate (appendOnlyAdd st false d v).1.log) = none := by
  refine ⟨rfl, ?_, ?_⟩
  · simp only [appendOnlyAdd, if_neg (by simp : ¬ (false = true))]
    exact mapLookup_mapInsert_self d v st.cache
  · simp only [appendOnlyAdd, if_neg (by simp : ¬ (false = true))]
    rw [← hcons]
    exact hmiss

/-- Witness for the amended C5 at a concrete store. -/
theorem C5_amended_witness :
    (appendOnlyAdd (⟨[("1996-01-01", "old")],
        ["old"]⟩ : AppendOnlyState String) false "2024-01-01" "record").2 = some ()
    ∧ mapLookup "2024-01-01" (appendOnlyAdd (⟨[("1996-01-01", "old")],
        ["old"]⟩ : AppendOnlyState String) false "2024-01-01" "record").1.cache = some "record"
    ∧ mapLookup "2024-01-01" (appendOnlyLoad (fun _ => "1996-01-01")
        (appendOnlyAdd (⟨[("1996-01-01", "old")], ["old"]⟩ : AppendOnlyState String)
          false "2024-01-01" "record").1.log) = none :=
  C5_amended_memory_ahead_of_log (fun _ => "1996-01-01")
    ⟨[("1996-01-01", "old")], ["old"]⟩ "2024-01-01" "record" (by decide) (by decide)

/-! ## Image artifacts (`ImageWrapper`) and the transcoder

An encoded image buffer is embedded as `BufM`: the format its bytes are
actually encoded in, together with its byte length.  The decoded `image.Image`
handle inside `ImageWrapper` carries no information used by the claims and is
omitted. -/

/-- An encoded image buffer: its actual encoding and its length in bytes. -/
structure BufM where
  fmt : String
  len : Nat
deriving DecidableEq

/-- Embedding of `ImageWrapper`: the format tag stored in the struct and the
current encoded bytes. -/
structure ImageWrapperM where
  format : String
  buf : BufM
deriving DecidableEq

/-- Embedding of `NewImageWrapper` in the success case: `image.Decode` detects
the actual encoding of the buffer and it is stored as the format tag. -/
def newImageWrapper (buf : BufM) : ImageWrapperM :=
  { format := buf.fmt, buf := buf }

/-- Embedding of `jpeg.Encode` at a given quality: the oracle `sizes` gives
the encoded size at each quality (`none` models an encode error); a successful
encode always produces jpeg-encoded bytes. -/
def jpegEncode (sizes : Nat → Option Nat) (q : Nat) : Option BufM :=
  (sizes q).map (fun n => { fmt := "jpeg", len := n })

/-- The quality loop of `ImageWrapper.Resize`
(`for quality := 100; quality > 0; quality -= 5`): re-encode with `jpeg.Encode`
and stop as soon as the buffer fits; when the loop exhausts all qualities the
method returns `nil` with `i.Bytes` (and `i.Format`) unchanged.  On a fitting
encode only `i.Bytes` is replaced; `i.Format` is not touched. -/
def resizeQualityLoop (enc : Nat → Option BufM) (maxBytes : Nat)
    (iw : ImageWrapperM) (q : Nat) : Except Unit ImageWrapperM :=
  if h : 0 < q then
    match enc q with
    | none => .error ()
    | some b =>
      if b.len ≤ maxBytes then .ok { iw with buf := b }
      else resizeQualityLoop enc maxBytes iw (q - 5)
  else .ok iw
termination_by q
decreasing_by exact Nat.sub_lt h (by decide)

/-- Embedding of `ImageWrapper.Resize`: return unchanged if the bytes already
fit, otherwise run the quality loop. -/
def iwResize (enc : Nat → Option BufM) (iw : ImageWrapperM) (maxBytes : Nat) :
    Except Unit ImageWrapperM :=
  if iw.buf.len ≤ maxBytes then .ok iw
  else resizeQualityLoop enc maxBytes iw 100

/-- Embedding of `DirectoryImageCache.Set`: the stored file is named
`<date>.<wrapper.Format>` and holds `wrapper.Bytes`. -/
def dirCacheSet (date : String) (iw : ImageWrapperM) : String × BufM :=
  (date ++ "." ++ iw.format, iw.buf)

theorem resizeQualityLoop_unfold (enc : Nat → Option BufM) (maxBytes : Nat)
    (iw : ImageWrapperM) (q : Nat) :
    resizeQualityLoop enc maxBytes iw q =
      if 0 < q then
        match enc q with
        | none => .error ()
        | some b =>
          if b.len ≤ maxBytes then .ok { iw with buf := b }
          else resizeQualityLoop enc maxBytes iw (q - 5)
      else .ok iw := by
  rw [resizeQualityLoop]
  simp only [dite_eq_ite]

theorem resizeQualityLoop_all_over (enc : Nat → Option BufM) (maxBytes : Nat)
    (iw : ImageWrapperM)
    (hover : ∀ q b, enc q = some b → ¬ b.len ≤ maxBytes)
    (hok : ∀ q, (enc q).isSome) :
    ∀ q, resizeQualityLoop enc maxBytes iw q = .ok iw := by
  intro q
  induction q using Nat.strong_induction_on with
  | _ q ih =>
    rw [resizeQualityLoop_unfold]
    by_cases hq : 0 < q
    · rw [if_pos hq]
      obtain ⟨b, hb⟩ := Option.isSome_iff_exists.mp (hok q)
      rw [hb]
      simp only [if_neg (hover q b hb)]
      exact ih (q - 5) (Nat.sub_lt hq (by decide))
    · rw [if_neg hq]

/-- Claim C3 (the code as it stands): when no quality level of the re-encoding
loop fits the budget, `ImageWrapper.Resize` returns success (`nil` error) with
the original over-budget bytes unchanged — evaluated at a 100-byte jpeg, a
10-byte budget and an encoder producing 50 bytes at every quality. -/
theorem C3_resize_silent_overbudget_success :
    iwResize (jpegEncode (fun _ => some 50))
        { format := "jpeg", buf := { fmt := "jpeg", len := 100 } } 10
      = .ok { format := "jpeg", buf := { fmt := "jpeg", len := 100 } }
    ∧ ¬ (100 ≤ 10) := by
  constructor
  · simp only [iwResize]
    rw [if_neg (by decide)]
    exact resizeQualityLoop_all_over _ 10 _
      (fun q b hb => by
        simp only [jpegEncode, Option.map, Option.some.injEq] at hb
        rw [← hb]
        decide)
      (fun q => by simp [jpegEncode]) 100
  · decide

/-- Claim C8 (the code as it stands): `Resize` re-encodes the bytes to jpeg but
leaves the format tag unchanged, so a resized png artifact is tagged "png"
while its bytes are jpeg, and `DirectoryImageCache.Set` then writes the jpeg
bytes under a `.png` file name. -/
theorem C8_format_tag_mismatch_after_resize :
    iwResize (jpegEncode (fun _ => some 5)) (newImageWrapper { fmt := "png", len := 100 }) 10
      = .ok { format := "png", buf := { fmt := "jpeg", len := 5 } }
    ∧ dirCacheSet "2023-09-26" { format := "png", buf := { fmt := "jpeg", len := 5 } }
      = ("2023-09-26.png", { fmt := "jpeg", len := 5 })
    ∧ ("png" : String) ≠ "jpeg" := by
  refine ⟨?_, by decide, by decide⟩
  simp only [iwResize, newImageWrapper]
  norm_num
  rw [resizeQualityLoop_unfold]
  norm_num [jpegEncode]

/-! ## Bounded in-memory image cache (`internal/apod/image_cache.go`) -/

/-- One `container/list` element of `MemoryImageCache.Cache`. -/
structure MemCacheEntry where
  date : String
  wrapper : ImageWrapperM
deriving DecidableEq

/-- Embedding of `MemoryImageCache`; the head of `cache` is the front of the
`container/list` (most recently used).  `Size` and `MaxSize` are Go `int`s. -/
structure MemoryImageCache where
  maxSize : Int
  size : Int
  cache : List MemCacheEntry
deriving DecidableEq

/-- Scan for an entry with the given date; return it and the remaining list in
order (so `e :: rest` is the list after `MoveToFront`). -/
def micFind : List MemCacheEntry → String → Option (MemCacheEntry × List MemCacheEntry)
  | [], _ => none
  | e :: rest, d =>
    if e.date = d then some (e, rest)
    else match micFind rest d with
      | some (f, l) => some (f, e :: l)
      | none => none

/-- Embedding of `MemoryImageCache.Get`: on a hit the entry is moved to the
front and its wrapper returned. -/
def MemoryImageCache.get (c : MemoryImageCache) (date : String) :
    Option ImageWrapperM × MemoryImageCache :=
  match micFind c.cache date with
  | some (e, rest) => (some e.wrapper, { c with cache := e :: rest })
  | none => (none, c)

/-- Embedding of `MemoryImageCache.Set`: an existing entry is moved to the
front and its wrapper replaced; otherwise, if `Size >= MaxSize`, the back
entry is removed and `Size` decremented (removing from an empty list is a
runtime panic, modelled as `none`) — and in every case the method returns
without inserting the new entry or increasing `Size`. -/
def MemoryImageCache.set (c : MemoryImageCache) (date : String) (w : ImageWrapperM) :
    Option MemoryImageCache :=
  match micFind c.cache date with
  | some (e, rest) => some { c with cache := { e with wrapper := w } :: rest }
  | none =>
    if c.maxSize ≤ c.size then
      match c.cache.getLast? with
      | none => none
      | some e => some { c with cache := c.cache.dropLast,
                                size := c.size - (e.wrapper.buf.len : Int) }
    else some c

/-- Claim C4 (the code as it stands): `MemoryImageCache.Set` never inserts the
new entry, so after `Set` on an empty cache with plenty of capacity the cache
is still empty and `Get` misses — no entry is ever resident, against the
claimed LRU admission/eviction behaviour. -/
theorem C4_set_never_inserts :
    (MemoryImageCache.set { maxSize := 100, size := 0, cache := [] } "2024-01-01"
        { format := "jpeg", buf := { fmt := "jpeg", len := 10 } })
      = some { maxSize := 100, size := 0, cache := [] }
    ∧ ((MemoryImageCache.get { maxSize := 100, size := 0, cache := [] } "2024-01-01").1
      = none) := by
  refine ⟨by decide, by decide⟩

/-! ## Date validation (`IsValidDate` in `internal/apod/apod.go`)

`time.Parse("2006-01-02", date)` accepts exactly a 4-digit year, a literal
`-`, a 2-digit month in 1..12, a literal `-`, and a 2-digit day within the
month's length (leap years included), with no surrounding text.  The embedded
parser reproduces that acceptance condition and yields the (year, month, day)
triple; `d.After(start)` on midnight-UTC values is strict lexicographic
comparison of the triples. -/

/-- Numeric value of a decimal digit character, `none` otherwise. -/
def digitVal? (c : Char) : Option Nat :=
  if '0' ≤ c ∧ c ≤ '9' then some (c.toNat - '0'.toNat) else none

/-- Gregorian leap-year rule used by Go's `time`. -/
def isLeapYear (y : Nat) : Bool :=
  if y % 4 = 0 then (if y % 100 = 0 then decide (y % 400 = 0) else true) else false

/-- Number of days in a month. -/
def daysIn (y m : Nat) : Nat :=
  if m = 2 then (if isLeapYear y then 29 else 28)
  else if m = 4 ∨ m = 6 ∨ m = 9 ∨ m = 11 then 30
  else 31

/-- Embedding of `time.Parse("2006-01-02", s)`: `some (y, m, d)` exactly when
Go's parse succeeds. -/
def parseGoDate (s : String) : Option (Nat × Nat × Nat) :=
  match s.data with
  | [y1, y2, y3, y4, s1, m1, m2, s2, d1, d2] =>
    match digitVal? y1, digitVal? y2, digitVal? y3, digitVal? y4,
          digitVal? m1, digitVal? m2, digitVal? d1, digitVal? d2 with
    | some a, some b, some c, some d, some e, some f, some g, some k =>
      if s1 = '-' ∧ s2 = '-' then
        if 1 ≤ e * 10 + f ∧ e * 10 + f ≤ 12
            ∧ 1 ≤ g * 10 + k
            ∧ g * 10 + k ≤ daysIn (((a * 10 + b) * 10 + c) * 10 + d) (e * 10 + f) then
          some (((a * 10 + b) * 10 + c) * 10 + d, e * 10 + f, g * 10 + k)
        else none
      else none
    | _, _, _, _, _, _, _, _ => none
  | _ => none

/-- Strict `After` on midnight-UTC dates: lexicographic comparison of
(year, month, day). -/
def dateAfter (a b : Nat × Nat × Nat) : Bool :=
  if b.1 < a.1 then true
  else if a.1 = b.1 then
    if b.2.1 < a.2.1 then true
    else if a.2.1 = b.2.1 then decide (b.2.2 < a.2.2)
    else false
  else false

/-- Embedding of `IsValidDate`: the string parses in `yyyy-mm-dd` format and
the date is strictly after 1995-06-16 (the first APOD). -/
def IsValidDate (s : String) : Bool :=
  match parseGoDate s with
  | none => false
  | some d => dateAfter d (1995, 6, 16)

/-! ## The `APOD` client (`internal/apod/apod.go`) -/

/-- Embedding of the `Response` JSON struct. -/
structure Response where
  title : String
  date : String
  url : String
  hdurl : String
  mediaType : String
  explanation : String
  thumbnail : String
  copyright : String
  service : String
deriving DecidableEq

/-- Outcome of one upstream single-date request (`singleRequest`): a decoded
response, a 404, or any other network/status/decode failure. -/
inductive FetchOutcome where
  | ok (r : Response)
  | notFound
  | failure
deriving DecidableEq

/-- Errors surfaced by `APOD.Get` / `APOD.GetImage`.  Network, non-200-status
and JSON-decode errors all take the same control path in the source and are
conflated into `apiFailure`; `downloadFailed` stands for any error from
`DownloadRawImage`. -/
inductive ApodError where
  | dateInvalid
  | dateNotFound
  | apiFailure
  | downloadFailed
deriving DecidableEq

/-- The record-cache side of the client: the in-memory index of the response
cache, plus a counter of upstream HTTP requests issued. -/
structure APODState where
  cache : List (String × Response)
  fetchCount : Nat
deriving DecidableEq

/-- Embedding of `APOD.Get`: reject invalid dates, serve from the cache, and
otherwise issue one upstream request, caching a successful response under
`response.Date`.  (The `cache.Add` error is discarded in the source; the
in-memory index is updated regardless, which is what `cache` models.) -/
def apodGet (upstream : String → FetchOutcome) (st : APODState) (date : String) :
    Except ApodError Response × APODState :=
  if IsValidDate date = false then (.error .dateInvalid, st)
  else
    match mapLookup date st.cache with
    | some r => (.ok r, st)
    | none =>
      match upstream date with
      | .ok r => (.ok r, { cache := mapInsert r.date r st.cache,
                           fetchCount := st.fetchCount + 1 })
      | .notFound => (.error .dateNotFound, { st with fetchCount := st.fetchCount + 1 })
      | .failure => (.error .apiFailure, { st with fetchCount := st.fetchCount + 1 })

/-- The full client state: record cache plus image cache. -/
structure APODFullState where
  apod : APODState
  imageCache : List (String × ImageWrapperM)
deriving DecidableEq

/-- Embedding of `APOD.GetImage`: reject invalid dates, serve from the image
cache, otherwise resolve the response via `APOD.Get`, download the raw image
(HD URL for images, thumbnail otherwise; `download` is the `downloadImage`
capability keyed by URL) and cache it under the requested day. -/
def apodGetImage (upstream : String → FetchOutcome)
    (download : String → Option ImageWrapperM)
    (st : APODFullState) (day : String) : Except ApodError ImageWrapperM × APODFullState :=
  if IsValidDate day = false then (.error .dateInvalid, st)
  else
    match mapLookup day st.imageCache with
    | some img => (.ok img, st)
    | none =>
      match apodGet upstream st.apod day with
      | (.error e, a') => (.error e, { st with apod := a' })
      | (.ok resp, a') =>
        match download (if resp.mediaType = "image" then resp.hdurl else resp.thumbnail) with
        | none => (.error .downloadFailed, { st with apod := a' })
        | some img =>
          (.ok img, { apod := a', imageCache := mapInsert day img st.imageCache })

/-- Claim C9: once `APOD.Get(d)` has succeeded, a repeated `Get(d)` returns the
same record with the state unchanged — in particular without issuing any
upstream fetch.  The upstream is assumed to key its response by the requested
date (`r.date = d`), which is how the cache written under `response.Date` is
hit on the second call. -/
theorem apodGet_cache_hit (upstream : String → FetchOutcome) (st : APODState)
    (d : String) (r : Response) (hval : ¬ IsValidDate d = false)
    (h : mapLookup d st.cache = some r) : apodGet upstream st d = (.ok r, st) := by
  simp only [apodGet, if_neg hval, h]

theorem C9_get_idempotent (upstream : String → FetchOutcome) (st st' : APODState)
    (d : String) (r : Response)
    (hdate : ∀ resp, upstream d = .ok resp → resp.date = d)
    (hfst : apodGet upstream st d = (.ok r, st')) :
    apodGet upstream st' d = (.ok r, st')
    ∧ (apodGet upstream st' d).2.fetchCount = st'.fetchCount := by
  by_cases hval : IsValidDate d = false
  · simp only [apodGet, if_pos hval] at hfst
    exact absurd (congrArg Prod.fst hfst) (by simp)
  · have hhit : mapLookup d st'.cache = some r := by
      simp only [apodGet, if_neg hval] at hfst
      match hcache : mapLookup d st.cache with
      | some r0 =>
        rw [hcache] at hfst
        obtain ⟨hr, hst⟩ := Prod.mk.inj hfst
        have hr' : r0 = r := by injection hr
        rw [← hst, ← hr']
        exact hcache
      | none =>
        rw [hcache] at hfst
        match hup : upstream d with
        | .ok resp =>
          rw [hup] at hfst
          obtain ⟨hr, hst⟩ := Prod.mk.inj hfst
          have hr' : resp = r := by injection hr
          rw [← hst]
          show mapLookup d (mapInsert resp.date resp st.cache) = some r
          rw [hdate resp hup, hr']
          exact mapLookup_mapInsert_self d r st.cache
        | .notFound =>
          rw [hup] at hfst
          exact absurd (congrArg Prod.fst hfst) (by simp)
        | .failure =>
          rw [hup] at hfst
          exact absurd (congrArg Prod.fst hfst) (by simp)
    have h2 := apodGet_cache_hit upstream st' d r hval hhit
    exact ⟨h2, by rw [h2]⟩

/-- The concrete response used in the C9 witness. -/
def c9resp : Response :=
  { title := "t", date := "1996-01-01", url := "u", hdurl := "h",
    mediaType := "image", explanation := "e", thumbnail := "n",
    copyright := "c", service := "v" }

/-- The concrete upstream used in the C9 witness. -/
def c9upstream (s : String) : FetchOutcome :=
  if s = "1996-01-01" then .ok c9resp else .failure

/-- Witness for C9: after a first successful `Get` starting from an empty
cache, the second `Get` hits the cache and leaves the state untouched. -/
theorem C9_witness :
    apodGet c9upstream ⟨[("1996-01-01", c9resp)], 1⟩ "1996-01-01"
      = (.ok c9resp, (⟨[("1996-01-01", c9resp)], 1⟩ : APODState)) := by
  refine (C9_get_idempotent c9upstream ⟨[], 0⟩ ⟨[("1996-01-01", c9resp)], 1⟩
    "1996-01-01" c9resp ?_ ?_).1
  · intro resp hresp
    unfold c9upstream at hresp
    rw [if_pos rfl] at hresp
    injection hresp with h
    rw [← h]
    rfl
  · show (if IsValidDate "1996-01-01" = false then _ else _) = _
    rw [if_neg (by decide)]
    show (match mapLookup "1996-01-01" ([] : List (String × Response)) with
      | some r => (Except.ok r, (⟨[], 0⟩ : APODState))
      | none => _) = _
    rfl

/-- Claim C10: `IsValidDate` accepts only `yyyy-mm-dd` strings strictly after
1995-06-16; in particular `IsValidDate "1995-06-16" = false`, and both
`APOD.Get` and `APOD.GetImage` reject the first published APOD date with
`ErrorDateInvalid` before doing anything else. -/
theorem C10_first_apod_date_rejected :
    (∀ s, IsValidDate s = true →
      ∃ y m d, parseGoDate s = some (y, m, d) ∧ dateAfter (y, m, d) (1995, 6, 16) = true)
    ∧ IsValidDate "1995-06-16" = false
    ∧ (∀ (upstream : String → FetchOutcome) (st : APODState),
        apodGet upstream st "1995-06-16" = (.error .dateInvalid, st))
    ∧ (∀ (upstream : String → FetchOutcome) (download : String → Option ImageWrapperM)
        (st : APODFullState),
        apodGetImage upstream download st "1995-06-16" = (.error .dateInvalid, st)) := by
  have hpar : IsValidDate "1995-06-16" = false := by decide
  refine ⟨fun s hs => ?_, hpar, fun upstream st => ?_, fun upstream download st => ?_⟩
  · unfold IsValidDate at hs
    match hp : parseGoDate s with
    | none => rw [hp] at hs; exact absurd hs (by simp)
    | some t =>
      rw [hp] at hs
      exact ⟨t.1, t.2.1, t.2.2, rfl, hs⟩
  · simp [apodGet, hpar]
  · simp [apodGetImage, hpar]

/-- Witness for C10: the implication holds at the valid date 1996-07-04, and
the rejection facts hold at a concrete upstream and state. -/
theorem C10_witness :
    (∃ y m d, parseGoDate "1996-07-04" = some (y, m, d)
      ∧ dateAfter (y, m, d) (1995, 6, 16) = true)
    ∧ apodGet (fun _ => .failure) ⟨[], 0⟩ "1995-06-16"
      = (.error .dateInvalid, (⟨[], 0⟩ : APODState))
    ∧ apodGetImage (fun _ => .failure) (fun _ => none) ⟨⟨[], 0⟩, []⟩ "1995-06-16"
      = (.error .dateInvalid, (⟨⟨[], 0⟩, []⟩ : APODFullState)) :=
  ⟨C10_first_apod_date_rejected.1 "1996-07-04" (by decide),
   C10_first_apod_date_rejected.2.2.1 _ _,
   C10_first_apod_date_rejected.2.2.2 _ _ _⟩

/-! ## The backfill engine (`APOD.Fill` in `internal/apod/apod.go`)

Dates are embedded as day indices: day 0 is 1995-06-16 (the `start` of the
loops) and `Format`/`Parse` are the identity on indices; `d.AddDate(0,0,1)` is
`d + 1`, `d.Before(today)` is `d < today`, and `end.Sub(d) < 30*24*time.Hour`
is `e - d < 30`.  The pacing `time.Sleep` calls do not affect any state and
are dropped. -/

/-- The upstream capabilities used by `Fill`: the today request of `Today()`
(`none` is any request error), the batch range request of `rangeRequest`
(returning the dates of the decoded responses), and the single-date request
issued through `APOD.Get` in the second pass (returning the response date). -/
structure FillEnv where
  fetchToday : Option Nat
  fetchRange : Nat → Nat → Option (List Nat)
  fetchOne : Nat → Option Nat

/-- State of the client as `Fill` sees it: the record-cache key set, the
`a.current`/`a.lastUpdate` today-memo (`fresh` meaning the memo is younger
than an hour), and counters for each kind of upstream HTTP request. -/
structure FillState where
  cache : List Nat
  current : Option Nat
  fresh : Bool
  todayFetches : Nat
  rangeFetches : Nat
  dateFetches : Nat
deriving DecidableEq

/-- Embedding of `cache.Has` on the key-set view of the record cache. -/
def hasDay (d : Nat) : List Nat → Bool
  | [] => false
  | x :: rest => if x = d then true else hasDay d rest

/-- Embedding of `cache.Add` keyed by date (the key set view). -/
def insertDay (d : Nat) (cache : List Nat) : List Nat :=
  if hasDay d cache then cache else d :: cache

/-- Embedding of `APOD.Today`: serve the memoised response when it exists and
is fresh, otherwise issue one upstream request and on success memoise and
cache the response. -/
def fillToday (env : FillEnv) (st : FillState) : Option Nat × FillState :=
  match st.current, st.fresh with
  | some t, true => (some t, st)
  | _, _ =>
    match env.fetchToday with
    | some t => (some t, { st with todayFetches := st.todayFetches + 1,
                                   current := some t, fresh := true,
                                   cache := insertDay t st.cache })
    | none => (none, { st with todayFetches := st.todayFetches + 1 })

/-- Embedding of the gap-extension loop of `Fill`: grow `e` while it is still
missing, the run is shorter than 30 days and `e` is before today. -/
def gapEnd (cache : List Nat) (today d e : Nat) : Nat :=
  if h : hasDay e cache = false ∧ e - d < 30 ∧ e < today then
    gapEnd cache today d (e + 1)
  else e
termination_by today - e
decreasing_by exact Nat.sub_lt_sub_left h.2.2 (Nat.lt_succ_self e)

theorem le_gapEnd (cache : List Nat) (today d : Nat) :
    ∀ e, e ≤ gapEnd cache today d e := by
  have key : ∀ k e, today - e ≤ k → e ≤ gapEnd cache today d e := by
    intro k
    induction k with
    | zero =>
      intro e he
      rw [gapEnd]
      have : ¬ (hasDay e cache = false ∧ e - d < 30 ∧ e < today) := by
        intro hc
        omega
      rw [dif_neg this]
    | succ k ih =>
      intro e he
      rw [gapEnd]
      by_cases hc : hasDay e cache = false ∧ e - d < 30 ∧ e < today
      · rw [dif_pos hc]
        have := ih (e + 1) (by omega)
        omega
      · rw [dif_neg hc]
  intro e
  exact key (today - e) e le_rfl

/-- Embedding of the first pass of `Fill`: scan forward, skip cached days, and
on the first missing day issue one batch request for the gap `[d, e]`, adding
every returned record to the cache on success (continuing from `e + 1`) or
continuing from `d + 1` on failure. -/
def fillLoop1 (env : FillEnv) (today : Nat) (d : Nat) (st : FillState) : FillState :=
  if hd : d < today then
    if hasDay d st.cache then fillLoop1 env today (d + 1) st
    else
      match env.fetchRange d (gapEnd st.cache today d (d + 1)) with
      | some rs =>
        fillLoop1 env today (gapEnd st.cache today d (d + 1) + 1)
          { st with rangeFetches := st.rangeFetches + 1,
                    cache := rs.foldl (fun c r => insertDay r c) st.cache }
      | none =>
        fillLoop1 env today (d + 1) { st with rangeFetches := st.rangeFetches + 1 }
  else st
termination_by today - d
decreasing_by
  · exact Nat.sub_lt_sub_left hd (Nat.lt_succ_self d)
  · exact Nat.sub_lt_sub_left hd
      (Nat.lt_succ_of_lt (Nat.lt_of_lt_of_le (Nat.lt_succ_self d)
        (le_gapEnd st.cache today d (d + 1))))
  · exact Nat.sub_lt_sub_left hd (Nat.lt_succ_self d)

/-- Embedding of `APOD.Get` as called from the second pass of `Fill`: day 0 is
1995-06-16 itself, which `IsValidDate` rejects before any request is made;
otherwise a cache miss issues one upstream request and caches the response
date on success. -/
def fillGetDay (env : FillEnv) (st : FillState) (d : Nat) : FillState :=
  if d = 0 then st
  else if hasDay d st.cache then st
  else
    match env.fetchOne d with
    | some r => { st with dateFetches := st.dateFetches + 1,
                          cache := insertDay r st.cache }
    | none => { st with dateFetches := st.dateFetches + 1 }

/-- Embedding of the second pass of `Fill`: fetch every still-missing day
individually. -/
def fillLoop2 (env : FillEnv) (today : Nat) (d : Nat) (st : FillState) : FillState :=
  if d < today then
    if hasDay d st.cache then fillLoop2 env today (d + 1) st
    else fillLoop2 env today (d + 1) (fillGetDay env st d)
  else st
termination_by today - d
decreasing_by
  · omega
  · omega

/-- Embedding of `APOD.Fill`: resolve today via `Today()` (returning early on
failure), then run the two passes from day 0. -/
def fill (env : FillEnv) (st : FillState) : FillState :=
  match fillToday env st with
  | (none, st1) => st1
  | (some t, st1) => fillLoop2 env t 0 (fillLoop1 env t 0 st1)

theorem fillLoop1_full (env : FillEnv) (t : Nat) (st : FillState)
    (hfull : ∀ n, n < t → hasDay n st.cache = true) :
    ∀ d, fillLoop1 env t d st = st := by
  have key : ∀ k d, t - d ≤ k → fillLoop1 env t d st = st := by
    intro k
    induction k with
    | zero =>
      intro d hd
      rw [fillLoop1]
      rw [dif_neg (by omega)]
    | succ k ih =>
      intro d hd
      rw [fillLoop1]
      by_cases hlt : d < t
      · rw [dif_pos hlt, if_pos (hfull d hlt)]
        exact ih (d + 1) (by omega)
      · rw [dif_neg hlt]
  intro d
  exact key (t - d) d le_rfl

theorem fillLoop2_full (env : FillEnv) (t : Nat) (st : FillState)
    (hfull : ∀ n, n < t → hasDay n st.cache = true) :
    ∀ d, fillLoop2 env t d st = st := by
  have key : ∀ k d, t - d ≤ k → fillLoop2 env t d st = st := by
    intro k
    induction k with
    | zero =>
      intro d hd
      rw [fillLoop2]
      rw [if_neg (by omega)]
    | succ k ih =>
      intro d hd
      rw [fillLoop2]
      by_cases hlt : d < t
      · rw [if_pos hlt, if_pos (hfull d hlt)]
        exact ih (d + 1) (by omega)
      · rw [if_neg hlt]
  intro d
  exact key (t - d) d le_rfl

theorem hasDay_insertDay (m n : Nat) (cache : List Nat)
    (h : hasDay n cache = true) : hasDay n (insertDay m cache) = true := by
  unfold insertDay
  by_cases hm : hasDay m cache
  · rw [if_pos hm]
    exact h
  · rw [if_neg hm]
    unfold hasDay
    by_cases hmn : m = n
    · rw [if_pos hmn]
    · rw [if_neg hmn]
      exact h

/-- Counterexample to claim C7: `Fill` over a cache already containing every
day from the first valid date up to today still issues one upstream request —
the `Today()` call that resolves today's date (here the today-memo is empty,
as right after client construction). -/
theorem C7_counterexample :
    (fill ⟨some 3, fun _ _ => none, fun _ => none⟩
        ⟨[0, 1, 2, 3], none, false, 0, 0, 0⟩).todayFetches
      + (fill ⟨some 3, fun _ _ => none, fun _ => none⟩
        ⟨[0, 1, 2, 3], none, false, 0, 0, 0⟩).rangeFetches
      + (fill ⟨some 3, fun _ _ => none, fun _ => none⟩
        ⟨[0, 1, 2, 3], none, false, 0, 0, 0⟩).dateFetches = 1 := by
  have h1 : fillToday ⟨some 3, fun _ _ => none, fun _ => none⟩
      ⟨[0, 1, 2, 3], none, false, 0, 0, 0⟩
      = (some 3, ⟨[0, 1, 2, 3], some 3, true, 1, 0, 0⟩) := rfl
  have hfull : ∀ n, n < 3 →
      hasDay n (⟨[0, 1, 2, 3], some 3, true, 1, 0, 0⟩ : FillState).cache = true := by
    decide
  have h2 := fillLoop1_full ⟨some 3, fun _ _ => none, fun _ => none⟩ 3
    ⟨[0, 1, 2, 3], some 3, true, 1, 0, 0⟩ hfull 0
  have h3 := fillLoop2_full ⟨some 3, fun _ _ => none, fun _ => none⟩ 3
    ⟨[0, 1, 2, 3], some 3, true, 1, 0, 0⟩ hfull 0
  have hstep : fill ⟨some 3, fun _ _ => none, fun _ => none⟩
      ⟨[0, 1, 2, 3], none, false, 0, 0, 0⟩
      = fillLoop2 ⟨some 3, fun _ _ => none, fun _ => none⟩ 3 0
          (fillLoop1 ⟨some 3, fun _ _ => none, fun _ => none⟩ 3 0
            ⟨[0, 1, 2, 3], some 3, true, 1, 0, 0⟩) := by
    unfold fill
    rw [h1]
  rw [hstep, h2, h3]
  rfl

/-- Claim C7 (amended): `Fill` over a cache already containing every day from
the first valid date up to today issues zero range requests and zero per-day
requests; its only upstream call is the single `Today()` request resolving
today's date, and even that is skipped (the whole run is a no-op) when the
today-memo is fresh. -/
theorem C7_amended_full_cache_only_today_call (env : FillEnv) (st : FillState) (t : Nat)
    (hres : (fillToday env st).1 = some t)
    (hfull : ∀ n, n < t → hasDay n st.cache = true) :
    (fill env st).rangeFetches = st.rangeFetches
    ∧ (fill env st).dateFetches = st.dateFetches
    ∧ (fill env st).todayFetches ≤ st.todayFetches + 1
    ∧ (st.current = some t → st.fresh = true → fill env st = st) := by
  have hp : fillToday env st = (some t, (fillToday env st).2) := by
    rw [← hres]
  have hfill : fill env st = fillLoop2 env t 0 (fillLoop1 env t 0 (fillToday env st).2) := by
    unfold fill
    rw [hp]
  match hcur : st.current, hfr : st.fresh with
  | some t', true =>
    have hsnd : (fillToday env st).2 = st := by
      unfold fillToday
      rw [hcur, hfr]
    rw [hsnd] at hfill
    rw [hfill, fillLoop1_full env t st hfull 0, fillLoop2_full env t st hfull 0]
    exact ⟨rfl, rfl, Nat.le_succ _, fun _ _ => rfl⟩
  | none, _ =>
    match hft : env.fetchToday with
    | some t0 =>
      have hsnd : (fillToday env st).2
          = { st with todayFetches := st.todayFetches + 1,
                      current := some t0, fresh := true,
                      cache := insertDay t0 st.cache } := by
        unfold fillToday
        rw [hcur, hft]
      have hfull' : ∀ n, n < t →
          hasDay n ((fillToday env st).2).cache = true := by
        intro n hn
        rw [hsnd]
        exact hasDay_insertDay t0 n st.cache (hfull n hn)
      rw [hfill, fillLoop1_full env t _ hfull' 0, fillLoop2_full env t _ hfull' 0]
      rw [hsnd]
      exact ⟨rfl, rfl, le_rfl, fun hc _ => Option.noConfusion hc⟩
    | none =>
      have : (fillToday env st).1 = none := by
        unfold fillToday
        rw [hcur, hft]
      rw [this] at hres
      exact Option.noConfusion hres
  | some t', false =>
    match hft : env.fetchToday with
    | some t0 =>
      have hsnd : (fillToday env st).2
          = { st with todayFetches := st.todayFetches + 1,
                      current := some t0, fresh := true,
                      cache := insertDay t0 st.cache } := by
        unfold fillToday
        rw [hcur, hfr, hft]
      have hfull' : ∀ n, n < t →
          hasDay n ((fillToday env st).2).cache = true := by
        intro n hn
        rw [hsnd]
        exact hasDay_insertDay t0 n st.cache (hfull n hn)
      rw [hfill, fillLoop1_full env t _ hfull' 0, fillLoop2_full env t _ hfull' 0]
      rw [hsnd]
      exact ⟨rfl, rfl, le_rfl, fun _ hf => Bool.noConfusion hf⟩
    | none =>
      have : (fillToday env st).1 = none := by
        unfold fillToday
        rw [hcur, hfr, hft]
      rw [this] at hres
      exact Option.noConfusion hres

/-- Witness for the amended C7 at a concrete environment and full cache. -/
theorem C7_amended_witness :
    (fill ⟨some 2, fun _ _ => none, fun _ => none⟩
        ⟨[0, 1, 2], some 2, true, 0, 0, 0⟩).rangeFetches = 0
    ∧ (fill ⟨some 2, fun _ _ => none, fun _ => none⟩
        ⟨[0, 1, 2], some 2, true, 0, 0, 0⟩).dateFetches = 0
    ∧ (fill ⟨some 2, fun _ _ => none, fun _ => none⟩
        ⟨[0, 1, 2], some 2, true, 0, 0, 0⟩).todayFetches ≤ 1
    ∧ fill ⟨some 2, fun _ _ => none, fun _ => none⟩
        ⟨[0, 1, 2], some 2, true, 0, 0, 0⟩ = ⟨[0, 1, 2], some 2, true, 0, 0, 0⟩ := by
  obtain ⟨h1, h2, h3, h4⟩ := C7_amended_full_cache_only_today_call
    ⟨some 2, fun _ _ => none, fun _ => none⟩ ⟨[0, 1, 2], some 2, true, 0, 0, 0⟩ 2
    rfl (by decide)
  exact ⟨h1, h2, h3, h4 rfl rfl⟩

end ApodBot
